/-
  Verification of the manifest build pipeline of rollup-plugin-chrome-package
  (source: dist/index-esm.js), developed as a shallow embedding: JavaScript
  strings are lists of characters, JS objects are Lean structures with
  `Option` fields for possibly-undefined properties, mutation is explicit
  state passing, and `throw` is `Except.error`.
-/
import Mathlib

/-- JavaScript strings are modelled as lists of characters. -/
abbrev Str := List Char

/-- Helper to write concrete character-list strings from Lean string literals. -/
def strL (s : String) : Str := s.data

/- ============================================================ -/
/-  JS string / array primitives used by the source             -/
/- ============================================================ -/
/-- JS `Set` iteration order is insertion order; spreading a `Set` built by
    successive `add` calls therefore yields the first occurrence of each
    element, in order.  `dedupAux seen l` drops the elements of `l` already
    seen. -/
def dedupAux {α : Type} [DecidableEq α] (seen : List α) : List α → List α
  | [] => []
  | x :: xs => if x ∈ seen then dedupAux seen xs else x :: dedupAux (x :: seen) xs

/-- JS `[...new Set(l)]` : first-occurrence de-duplication, preserving order. -/
def dedupFirst {α : Type} [DecidableEq α] (l : List α) : List α := dedupAux [] l

/- ============================================================ -/
/-  combinePerms  (source lines 487-506)                        -/
/- ============================================================ -/
/-- JS `perm.startsWith('!')`. -/
def startsWithBang : Str → Bool
  | '!' :: _ => true
  | _ => false

/-- Embedding of `combinePerms` (source lines 487-506).  The variadic
    arguments flattened by `flat(Infinity)` are modelled as a list of lists of
    permission strings (the `typeof perm !== 'undefined'` filter is a no-op on
    string entries and is omitted).  The `reduce` pass builds the insertion
    ordered set `perms` of entries not starting with `'!'` and the set
    `xperms` of the `'!'`-entries with the `'!'` sliced off; the result is
    `[...perms].filter((p) => !xperms.has(p))`. -/
def combinePerms (permissions : List (List Str)) : List Str :=
  let flat := permissions.flatten
  let perms := dedupFirst (flat.filter (fun p => !startsWithBang p))
  let xperms := (flat.filter (fun p => startsWithBang p)).map (List.drop 1)
  perms.filter (fun p => !xperms.contains p)

/- ============================================================ -/
/-  reduceToRecord  (source lines 77-94)                        -/
/- ============================================================ -/
/-- Prepend a character to the first chunk of a split result (used to build
    the semantics of JS `String.prototype.split`). -/
def consHead (c : Char) : List Str → List Str
  | [] => [[c]]
  | h :: t => (c :: h) :: t

/-- JS `s.split('.')`: split at every `'.'`, keeping empty chunks. -/
def splitOnDot : Str → List Str
  | [] => [[]]
  | '.' :: rest => [] :: splitOnDot rest
  | c :: rest => consHead c (splitOnDot rest)

/-- JS `s.split('/')`. -/
def splitOnSlash : Str → List Str
  | [] => [[]]
  | '/' :: rest => [] :: splitOnSlash rest
  | c :: rest => consHead c (splitOnSlash rest)

/-- Resolution of `'.'`/`'..'`/empty path segments, as Node's path
    normalization performs it: empty and `'.'` segments are dropped, `'..'`
    pops the previous segment (at the root of an absolute path it is
    dropped; leading `'..'` segments of a relative path are kept). -/
def normalizePathSegments (isAbs : Bool) (segs : List Str) : List Str :=
  segs.foldl
    (fun acc seg =>
      if seg = ([] : Str) ∨ seg = ['.'] then acc
      else if seg = ['.', '.'] then
        match acc.getLast? with
        | none => if isAbs then [] else [seg]
        | some l => if l = ['.', '.'] then acc ++ [seg] else acc.dropLast
      else acc ++ [seg]) []

/-- The length of the longest common prefix of two segment lists. -/
def commonPrefixLen : List Str → List Str → Nat
  | a :: as, b :: bs => if a = b then commonPrefixLen as bs + 1 else 0
  | _, _ => 0

/-- Node `path.relative(srcDir, filename)` for two paths relative to the
    same working directory: both are segment-normalized, the common prefix
    is dropped, and one `'..'` is emitted for every remaining `srcDir`
    segment.  A file under `srcDir` yields its relative part; a file outside
    it yields a `'..'`-prefixed path (`relative('src', 'a.js') = '../a.js'`),
    as Node does.  Mixing absolute with relative arguments and symlink
    resolution are outside the modelled domain. -/
def relative (srcDir filename : Str) : Str :=
  let f := normalizePathSegments false (splitOnSlash srcDir)
  let t := normalizePathSegments false (splitOnSlash filename)
  let k := commonPrefixLen f t
  List.intercalate ['/'] (List.replicate (f.length - k) ['.', '.'] ++ t.drop k)

/-- The name `relative(srcDir, filename).split('.').slice(0, -1).join('.')` : the
    srcDir-relative name with the final extension stripped. -/
def stripName (srcDir filename : Str) : Str :=
  List.intercalate ['.'] ((splitOnDot (relative srcDir filename)).dropLast)

/-- The record built by `reduceToRecord`'s reducer is modelled as an
    association list in insertion order (JS object own string keys; the
    integer-like-key reordering of JS objects is not modelled — no
    derived name is integer-like). -/
abbrev InputRecord := List (Str × Str)

/-- The property names of JavaScript's `Object.prototype`, which the `in`
    operator sees on every plain object in addition to the object's own
    keys. -/
def objectPrototypeKeys : List Str :=
  [strL "constructor", strL "hasOwnProperty", strL "isPrototypeOf",
   strL "propertyIsEnumerable", strL "toLocaleString", strL "toString",
   strL "valueOf", strL "__defineGetter__", strL "__defineSetter__",
   strL "__lookupGetter__", strL "__lookupSetter__", strL "__proto__"]

/-- The reducer returned by `reduceToRecord` for a defined `srcDir`: it
    strips each filename to its srcDir-relative extension-less name, throws
    when `name in inputRecord` holds — JS `in` sees the record's own keys
    and the `Object.prototype` keys — and otherwise extends the record with
    the new binding (kept at the end, as object spread does for a fresh
    key). -/
def recordReducer (d : Str) (inputRecord : InputRecord) (filename : Str) :
    Except Str InputRecord :=
  let name := stripName d filename
  if inputRecord.any (fun kv => kv.1 = name) || objectPrototypeKeys.contains name then
    Except.error (strL "Script files with different extensions should not share names:" ++
      filename)
  else
    Except.ok (inputRecord ++ [(name, filename)])

/-- Embedding of `reduceToRecord` (source lines 77-94): with a null or
    undefined `srcDir` it throws a `TypeError` at once; otherwise it returns
    the reducer. -/
def reduceToRecord (srcDir : Option Str) :
    Except Str (InputRecord → Str → Except Str InputRecord) :=
  match srcDir with
  | none => Except.error (strL "srcDir is null or undefined")
  | some d => Except.ok (recordReducer d)

/-- Folding a list of file paths with `reduceToRecord(srcDir)`, as the
    `options` hook does with `cache.input.reduce(reduceToRecord(cache.srcDir),
    cache.inputObj)` (source lines 3036-3039). -/
def foldToRecord (srcDir : Option Str) (init : InputRecord) (files : List Str) :
    Except Str InputRecord :=
  match reduceToRecord srcDir with
  | Except.error e => Except.error e
  | Except.ok f => files.foldlM f init

/- ============================================================ -/
/-  Manifest data model                                         -/
/- ============================================================ -/
/-- The `background` field of a manifest.  The JS key `type` is a Lean
    keyword, so it is modelled as `type'`. -/
structure BackgroundObj where
  service_worker : Option Str := none
  scripts : Option (List Str) := none
  page : Option Str := none
  type' : Option Str := none
deriving DecidableEq

/-- One entry of `content_scripts` (`matches` is a Lean keyword, so the JS
    key `matches` is modelled as `matches'`). -/
structure ContentScript where
  matches' : Option (List Str) := none
  js : Option (List Str) := none
  css : Option (List Str) := none
deriving DecidableEq

/-- One MV3 `web_accessible_resources` rule. -/
structure WebAccessibleResourceV3 where
  resources : List Str := []
  matches' : List Str := []
deriving DecidableEq

/-- A `default_icon` value: a single path string or an object of
    size-keyed paths (modelled by its `Object.values` list). -/
inductive IconField where
  | str (s : Str)
  | obj (values : List Str)
deriving DecidableEq

/-- An `action` / `browser_action` / `page_action` object. -/
structure ActionObj where
  default_popup : Option Str := none
  default_icon : Option IconField := none
deriving DecidableEq

/-- The `options_ui` object. -/
structure OptionsUi where
  page : Option Str := none
deriving DecidableEq

/-- A manifest object.  `manifest_version` is `Option` because a loaded
    config may omit it (the normalizer later overlays the default `2`).
    `chrome_url_overrides` and `icons` are JS objects read only through
    `Object.values`, so they are modelled by their value lists.  The JSON key
    `web_accessible_resources` holds rule objects in MV3 and plain strings in
    MV2; the two shapes of the single JSON key are modelled as two fields,
    each read only by the corresponding generation's code path. -/
structure ManifestObj where
  manifest_version : Option Nat := none
  default_locale : Option Str := none
  background : Option BackgroundObj := none
  content_scripts : Option (List ContentScript) := none
  options_page : Option Str := none
  options_ui : Option OptionsUi := none
  devtools_page : Option Str := none
  action : Option ActionObj := none
  browser_action : Option ActionObj := none
  page_action : Option ActionObj := none
  chrome_url_overrides : List Str := []
  icons : List Str := []
  host_permissions : Option (List Str) := none
  permissions : Option (List Str) := none
  web_accessible_resources : Option (List WebAccessibleResourceV3) := none
  web_accessible_resources_mv2 : Option (List Str) := none
deriving DecidableEq

/- ============================================================ -/
/-  Path and glob primitives                                    -/
/- ============================================================ -/
/-- Node `path.join(a, b)`: `a + '/' + b` followed by Node's normalization,
    which drops `'.'` and empty segments and resolves `'..'` — so distinct
    spellings collapse (`pathJoin 'src' 'a.png' = pathJoin 'src' './a.png'
    = 'src/a.png'`) and the function is NOT injective.  Trailing separators
    are outside the modelled domain.  In the derivation embedding the join
    is a parameter (an external collaborator); `pathJoin` is the executable
    model used at concrete inputs. -/
def pathJoin (a b : Str) : Str :=
  let isAbs := a.head? = some '/'
  let norm := normalizePathSegments isAbs (splitOnSlash (a ++ '/' :: b))
  let body := List.intercalate ['/'] norm
  if isAbs then '/' :: body
  else if body = [] then ['.'] else body

/-- The `slash(p)` package: convert Windows backslashes to forward slashes. -/
def slash (p : Str) : Str := p.map (fun c => if c = '\\' then '/' else c)

/-- Node `path.basename(t)`: the part after the last `'/'`. -/
def basename (t : Str) : Str := ((splitOnSlash t).getLast? ).getD t

/-- Node `path.dirname(t)`: the part before the last `'/'` (`'.'` when there
    is no separator, as in Node). -/
def dirname (t : Str) : Str :=
  let parts := splitOnSlash t
  if parts.length ≤ 1 then ['.'] else List.intercalate ['/'] parts.dropLast

/-- JS `s.replace(pat, repl)` with a string pattern: replace the first
    occurrence only (the whole string is returned unchanged when the pattern
    does not occur). -/
def replaceFirst (pat repl : Str) : Str → Str
  | [] => if pat.isPrefixOf ([] : Str) then repl else []
  | c :: rest =>
    if pat.isPrefixOf (c :: rest) then repl ++ (c :: rest).drop pat.length
    else c :: replaceFirst pat repl rest

/-- Model of `glob.hasMagic(x)`: whether a resource entry contains glob magic
    characters (the core magic set; extglob parenthesis forms are not
    modelled). -/
def hasMagic (x : Str) : Bool :=
  x.any (fun c => c ∈ (['*', '?', '[', ']', '{', '}'] : List Char))

/- ============================================================ -/
/-  deriveFiles  (source lines 689-872)                         -/
/- ============================================================ -/
/-- The `options` argument of `deriveFiles` (only `contentScripts` is
    read). -/
structure DeriveOptions where
  contentScripts : Bool := false
deriving DecidableEq

/-- The six categories returned by `deriveFiles`. -/
structure DerivedFiles where
  css : List Str
  contentScripts : List Str
  js : List Str
  html : List Str
  img : List Str
  others : List Str
deriving DecidableEq

/-- Test `/\.[jt]sx?$/.test(f)`. -/
def testJsRe (f : Str) : Bool :=
  (strL ".js").isSuffixOf f || (strL ".ts").isSuffixOf f ||
    (strL ".jsx").isSuffixOf f || (strL ".tsx").isSuffixOf f

/-- Test `/\.html?$/.test(f)`. -/
def testHtmlRe (f : Str) : Bool :=
  (strL ".htm").isSuffixOf f || (strL ".html").isSuffixOf f

/-- Test `/\.(jpe?g|png|svg|tiff?|gif|webp|bmp|ico)$/i.test(f)`. -/
def testImgRe (f : Str) : Bool :=
  [strL ".jpg", strL ".jpeg", strL ".png", strL ".svg", strL ".tif",
    strL ".tiff", strL ".gif", strL ".webp", strL ".bmp", strL ".ico"].any
    (fun e => e.isSuffixOf (f.map Char.toLower))

/-- The glob-expansion `reduce` shared by `deriveFilesMV3`/`MV2`: entries
    with magic characters are expanded by `glob.sync(x, { cwd: srcDir })` —
    an external filesystem listing, supplied as the function `globSync` —
    and each expanded path has the first occurrence of `srcDir` removed
    (`f.replace(srcDir, '')`); non-magic entries pass through. -/
def expandGlobs (globSync : Str → List Str) (srcDir : Str) (entries : List Str) : List Str :=
  entries.foldl
    (fun r x =>
      if hasMagic x then r ++ (globSync x).map (replaceFirst srcDir [])
      else r ++ [x]) []

/-- Model of `Object.values(get(manifest, 'action.default_icon', {}))` (MV3): values
    of an icon object; `Object.values` of a JS string yields its characters
    as one-character strings. -/
def iconValuesMV3 (a : Option ActionObj) : List Str :=
  match a.bind (fun x => x.default_icon) with
  | none => []
  | some (IconField.obj vs) => vs
  | some (IconField.str s) => s.map (fun c => [c])

/-- The `actionIconSet` of `deriveFilesMV2` for one of the two icon queries:
    a string icon is added whole, an object contributes its values. -/
def iconEntriesMV2 (a : Option ActionObj) : List Str :=
  match a.bind (fun x => x.default_icon) with
  | none => []
  | some (IconField.str s) => [s]
  | some (IconField.obj vs) => vs

/-- The `validate` helper of `deriveFilesMV3`/`MV2` (source lines 775-777 and
    869-871): `[...new Set(ary.filter(isString))].map((x) => join(srcDir, x))`.
    Possibly-undefined entries are `Option`; `filterMap id` is
    `filter(isString)`.  De-duplication happens BEFORE the join; the join
    function (Node `path.join`, a normalizing external collaborator) is a
    parameter. -/
def validate (join : Str → Str → Str) (srcDir : Str) (ary : List (Option Str)) : List Str :=
  (dedupFirst (ary.filterMap id)).map (join srcDir)

/-- The common final assembly of both derivations: `others` is
    `difference(files, css, contentScripts, js, html, img)` (the entries of
    `files` appearing in none of the five category arrays), and every
    category goes through `validate`. -/
def assembleDerived (join : Str → Str → Str) (srcDir : Str) (files cssR csR imgR : List Str)
    (jsR htmlR : List (Option Str)) : DerivedFiles :=
  let others := files.filter (fun f =>
    !(cssR.contains f || csR.contains f || jsR.contains (some f) ||
      htmlR.contains (some f) || imgR.contains f))
  { css := validate join srcDir (cssR.map some)
    contentScripts := validate join srcDir (csR.map some)
    js := validate join srcDir jsR
    html := validate join srcDir htmlR
    img := validate join srcDir (imgR.map some)
    others := validate join srcDir (others.map some) }

/-- Embedding of `deriveFilesMV3` (source lines 701-778). -/
def deriveFilesMV3 (join : Str → Str → Str) (globSync : Str → List Str)
    (manifest : ManifestObj) (srcDir : Str) (options : DeriveOptions) : DerivedFiles :=
  let locales : List Str :=
    match manifest.default_locale with
    | some _ => [strL "_locales/**/messages.json"]
    | none => []
  let files : List Str :=
    expandGlobs globSync srcDir
      (((manifest.web_accessible_resources.getD []).flatMap
        (fun r => r.resources)) ++ locales)
  let contentScripts : List Str :=
    (manifest.content_scripts.getD []).flatMap (fun cs => cs.js.getD [])
  let js : List (Option Str) :=
    (files.filter testJsRe).map some ++
      [manifest.background.bind (fun b => b.service_worker)] ++
      (if options.contentScripts then contentScripts.map some else [])
  let html : List (Option Str) :=
    (files.filter testHtmlRe).map some ++
      [manifest.options_page, manifest.options_ui.bind (fun o => o.page),
        manifest.devtools_page, manifest.action.bind (fun a => a.default_popup)] ++
      manifest.chrome_url_overrides.map some
  let css : List Str :=
    files.filter (fun f => (strL ".css").isSuffixOf f) ++
      (manifest.content_scripts.getD []).flatMap (fun cs => cs.css.getD [])
  let img : List Str :=
    files.filter testImgRe ++ manifest.icons ++ iconValuesMV3 manifest.action
  assembleDerived join srcDir files css contentScripts img js html

/-- Embedding of `deriveFilesMV2` (source lines 780-872). -/
def deriveFilesMV2 (join : Str → Str → Str) (globSync : Str → List Str)
    (manifest : ManifestObj) (srcDir : Str) (options : DeriveOptions) : DerivedFiles :=
  let locales : List Str :=
    match manifest.default_locale with
    | some _ => [strL "_locales/**/messages.json"]
    | none => []
  let files : List Str :=
    expandGlobs globSync srcDir ((manifest.web_accessible_resources_mv2.getD []) ++ locales)
  let contentScripts : List Str :=
    (manifest.content_scripts.getD []).flatMap (fun cs => cs.js.getD [])
  let js : List (Option Str) :=
    (files.filter testJsRe).map some ++
      ((manifest.background.bind (fun b => b.scripts)).getD []).map some ++
      (if options.contentScripts then contentScripts.map some else [])
  let html : List (Option Str) :=
    (files.filter testHtmlRe).map some ++
      [manifest.background.bind (fun b => b.page), manifest.options_page,
        manifest.options_ui.bind (fun o => o.page), manifest.devtools_page,
        manifest.browser_action.bind (fun a => a.default_popup),
        manifest.page_action.bind (fun a => a.default_popup)] ++
      manifest.chrome_url_overrides.map some
  let css : List Str :=
    files.filter (fun f => (strL ".css").isSuffixOf f) ++
      (manifest.content_scripts.getD []).flatMap (fun cs => cs.css.getD [])
  let actionIconSet : List Str :=
    dedupFirst (iconEntriesMV2 manifest.browser_action ++ iconEntriesMV2 manifest.page_action)
  let img : List Str :=
    actionIconSet ++ files.filter testImgRe ++ manifest.icons
  assembleDerived join srcDir files css contentScripts img js html

/-- Embedding of `deriveFiles` (source lines 689-699): dispatch on the
    manifest generation. -/
def deriveFiles (join : Str → Str → Str) (globSync : Str → List Str)
    (manifest : ManifestObj) (srcDir : Str) (options : DeriveOptions) : DerivedFiles :=
  if manifest.manifest_version = some 3 then
    deriveFilesMV3 join globSync manifest srcDir options
  else
    deriveFilesMV2 join globSync manifest srcDir options

/-- The six categories as srcDir-relative entries: `deriveFiles` with the
    identity in place of `path.join`.  `validate`'s first-occurrence
    de-duplication and the `others` difference operate on exactly these
    entries, before any join. -/
def deriveFilesRelative (globSync : Str → List Str) (manifest : ManifestObj)
    (srcDir : Str) (options : DeriveOptions) : DerivedFiles :=
  deriveFiles (fun _ x => x) globSync manifest srcDir options

/- ============================================================ -/
/-  Build cache and watchChange hook                            -/
/- ============================================================ -/
/-- The process-wide build cache (source lines 2866-2879).  `readFile` is
    the memoization `Map` of `readAssetAsBuffer`, modelled as an association
    list with (at most) one entry per path; the file bytes are a string.
    `srcDir` is initialized to `null` in the source but only read after being
    assigned, so it is modelled as a plain string.  The fields
    `contentScriptCode`/`contentScriptIds` and `inputObj` are not read by any
    code under verification and are omitted. -/
structure Cache where
  assetChanged : Bool := false
  assets : List Str := []
  contentScripts : List Str := []
  iife : List Str := []
  input : List Str := []
  inputAry : List Str := []
  permsHash : Str := []
  readFile : List (Str × Str) := []
  srcDir : Str := []
  manifest : Option ManifestObj := none
  chunkFileNames : Option Str := none
deriving DecidableEq

/-- The string `'manifest.json'` (the `manifestName` closure of the plugin). -/
def manifestName : Str := strL "manifest.json"

/-- Embedding of the `watchChange` hook (source lines 3161-3170).  When the
    changed path ends with `'manifest.json'`, `cache.manifest` is deleted and
    `assetChanged` is reset to `false`; otherwise
    `cache.assetChanged = cache.readFile.delete(id)`: the entry for `id` is
    evicted from the read-file map and `assetChanged` records whether such an
    entry existed. -/
def watchChange (cache : Cache) (id : Str) : Cache :=
  if manifestName.isSuffixOf id then
    { cache with manifest := none, assetChanged := false }
  else
    { cache with
        assetChanged := cache.readFile.any (fun kv => kv.1 = id),
        readFile := cache.readFile.filter (fun kv => kv.1 ≠ id) }

/- ============================================================ -/
/-  convertMatchPatterns  (source lines 2635-2656)              -/
/- ============================================================ -/
/-- JS `m.split('://')`: chunks between occurrences of `'://'`. -/
def splitOnSchemeSep : Str → List Str
  | [] => [[]]
  | ':' :: '/' :: '/' :: rest => [] :: splitOnSchemeSep rest
  | c :: rest => consHead c (splitOnSchemeSep rest)

/-- JS `rest.split(/(:\*)/)` without the captured separators: the chunks
    between occurrences of `':*'` (the captured `':*'` entries of the JS
    result sit between consecutive chunks). -/
def splitOnWildPort : Str → List Str
  | [] => [[]]
  | ':' :: '*' :: rest => [] :: splitOnWildPort rest
  | c :: rest => consHead c (splitOnWildPort rest)

/-- JS `base.split(':3333')`: chunks between occurrences of `':3333'`. -/
def splitOnPlaceholderPort : Str → List Str
  | [] => [[]]
  | ':' :: '3' :: '3' :: '3' :: '3' :: rest => [] :: splitOnPlaceholderPort rest
  | c :: rest => consHead c (splitOnPlaceholderPort rest)

/-- Model of `new URL('http://' + frag).origin` for the authority-shaped
    inputs this code feeds it: everything up to the first `'/'` is the
    authority, the path is dropped, the authority is lowercased and a
    default-port suffix `':80'` is stripped (WHATWG URL normalizations;
    percent-decoding and punycode are outside the modelled domain). -/
def urlOriginHttp (frag : Str) : Str :=
  let authority := (frag.takeWhile (fun c => c ≠ '/')).map Char.toLower
  strL "http://" ++
    (if (strL ":80").isSuffixOf authority then authority.take (authority.length - 3)
     else authority)

/-- The numeric value of a hexadecimal digit. -/
def hexDigitVal (c : Char) : Nat :=
  if '0' ≤ c ∧ c ≤ '9' then c.toNat - '0'.toNat
  else if 'a' ≤ c ∧ c ≤ 'f' then c.toNat - 'a'.toNat + 10
  else if 'A' ≤ c ∧ c ≤ 'F' then c.toNat - 'A'.toNat + 10
  else 0

/-- Whether a character is a hexadecimal digit. -/
def isHexDigit (c : Char) : Bool :=
  c.isDigit || ('a' ≤ c && c ≤ 'f') || ('A' ≤ c && c ≤ 'F')

/-- JS `unescape`: decode `%XX` escapes (`%uXXXX` is not modelled — the
    inputs reaching it here contain no `'%'` at all). -/
def unescapeJS : Str → Str
  | [] => []
  | c :: c1 :: c2 :: rest =>
    if c = '%' && isHexDigit c1 && isHexDigit c2 then
      Char.ofNat (16 * hexDigitVal c1 + hexDigitVal c2) :: unescapeJS rest
    else c :: unescapeJS (c1 :: c2 :: rest)
  | c :: rest => c :: unescapeJS rest

/-- Embedding of `convertMatchPatterns` (source lines 2635-2656).
    `[scheme, rest] = m.split('://')` keeps chunks 0 and 1;
    `[a, port, b] = rest.split(/(:\*)/)` receives, with the capture group,
    chunk 0, the separator `':*'` (present exactly when the split produced at
    least two chunks — so `port === ':*'` is `2 ≤ chunks.length`), and chunk
    1; `frag` re-inserts the placeholder port `3333`; the URL origin drops
    the path; `[x, y] = base.split(':3333')` removes the placeholder again
    and `[x, port, y].join('')` restores `':*'` (`undefined` joins as the
    empty string, modelled by `getD 1 []`). -/
def convertMatchPatterns (m : Str) : Str :=
  let parts := splitOnSchemeSep m
  let scheme := parts.getD 0 []
  let rest := parts.getD 1 []
  let chunks := splitOnWildPort rest
  let a := chunks.getD 0 []
  let b := chunks.getD 1 []
  if 2 ≤ chunks.length then
    let frag := a ++ strL ":3333" ++ b
    let origin := urlOriginHttp frag
    let base := (splitOnSchemeSep origin).getD 1 []
    let pchunks := splitOnPlaceholderPort base
    let x := pchunks.getD 0 []
    let y := pchunks.getD 1 []
    unescapeJS (scheme ++ strL "://" ++ (x ++ strL ":*" ++ y) ++ strL "/*")
  else
    let origin := urlOriginHttp rest
    let base := (splitOnSchemeSep origin).getD 1 []
    unescapeJS (scheme ++ strL "://" ++ base ++ strL "/*")

/- ============================================================ -/
/-  updateManifestV3  (source lines 2664-2740)                  -/
/- ============================================================ -/
/-- One rollup output-options object (only `chunkFileNames` is read and
    written by the code under verification). -/
structure OutputOptions where
  chunkFileNames : Option Str := none
deriving DecidableEq

/-- The `options.output` value: a single options object or an array of them. -/
inductive OutputField where
  | single (o : OutputOptions)
  | array (os : List OutputOptions)
deriving DecidableEq

/-- The rollup options object (only `output` is relevant here). -/
structure RollupOptions where
  output : Option OutputField := none
deriving DecidableEq

/-- The default chunk-file-name template `'chunks/[name]-[hash].js'`. -/
def defaultChunkFileNames : Str := strL "chunks/[name]-[hash].js"

/-- Embedding of `getImportContentScriptFileName` (source lines 2659-2662):
    `target.replace(basename(target), 'import-' + basename(target))`. -/
def getImportContentScriptFileName (target : Str) : Str :=
  replaceFirst (basename target) (strL "import-" ++ basename target) target

/-- The chunk-file-name glob placed first in the synthesized resources:
    `slash(cfn.split('/').join('/').replace('[format]','*').replace('[name]','*').replace('[hash]','*'))`.
    `split('/').join('/')` is the identity and is dropped; each JS `replace`
    replaces only the first occurrence of its pattern. -/
def chunkGlob (cfn : Str) : Str :=
  slash (replaceFirst (strL "[hash]") (strL "*")
    (replaceFirst (strL "[name]") (strL "*")
      (replaceFirst (strL "[format]") (strL "*") cfn)))

/-- The `chunkFileNames` value the source resolves:
    `const { chunkFileNames = 'chunks/[name]-[hash].js' } =
       Array.isArray(output) ? output[0] : output`
    (with `const { output = {} } = options`). -/
def resolvedChunkFileNames (options : RollupOptions) : Str :=
  match options.output.getD (OutputField.single {}) with
  | OutputField.single o => o.chunkFileNames.getD defaultChunkFileNames
  | OutputField.array os =>
    (os.head?.bind (fun o => o.chunkFileNames)).getD defaultChunkFileNames

/-- The tail of `updateManifestV3` once the chunk-file-name checks have
    passed (source lines 2705-2739): convert and de-duplicate the match
    patterns of all content scripts and host permissions, synthesize the
    resources list (chunk glob first, then the source-relative path of every
    cached content-script file), optionally wrap the content scripts, and
    push one rule onto `web_accessible_resources`.  `output'` is the output
    value after the source's in-place `chunkFileNames` writes; a `RollupOptions`
    with `output` undefined is returned unchanged because the JS destructuring
    default `{}` is a fresh object not reachable from `options`. -/
def updateManifestV3Finish (manifest : ManifestObj) (csList : List ContentScript)
    (options : RollupOptions) (output' : OutputField) (cfn : Str)
    (wrapContentScripts : Bool) (cache : Cache) :
    ManifestObj × RollupOptions × Cache :=
  let allMatches := ((csList.flatMap (fun c => c.matches'.getD [])) ++
      manifest.host_permissions.getD []).map convertMatchPatterns
  let matchesList := dedupFirst allMatches
  let resources := chunkGlob cfn ::
    cache.contentScripts.map (fun x => slash (relative cache.srcDir x))
  let manifest :=
    if wrapContentScripts then
      { manifest with content_scripts := some (csList.map (fun c =>
          { c with js := c.js.map (List.map getImportContentScriptFileName) })) }
    else manifest
  let manifest :=
    { manifest with
        web_accessible_resources :=
          some ((manifest.web_accessible_resources.getD []) ++
            [{ resources := resources, matches' := matchesList }]) }
  let options :=
    match options.output with
    | none => options
    | some _ => { options with output := some output' }
  (manifest, options, cache)

/-- Step `if (manifest.background) manifest.background.type = 'module'`
    (source lines 2672-2674), applied to the deep clone. -/
def backgroundToModule (m : ManifestObj) : ManifestObj :=
  match m.background with
  | some bg => { m with background := some { bg with type' := some (strL "module") } }
  | none => m

/-- Embedding of `updateManifestV3` (source lines 2664-2740).  The manifest
    is deep-cloned (`cloneObject`), so the caller's manifest is never written
    through; mutation of `options.output` and of the cache is modelled by
    returning the updated values.  An empty output array makes the JS
    destructuring `const { chunkFileNames } = output[0]` throw a `TypeError`
    (`output[0]` is `undefined`); more than one distinct
    `chunkFileNames ?? 'no cfn'` value across an output array throws the
    configuration `TypeError`.  (On those throw paths the source has already
    written `cache.chunkFileNames`; the model returns only the error, and no
    claim concerns the cache on an error path.) -/
def updateManifestV3 (m : ManifestObj) (options : RollupOptions)
    (wrapContentScripts : Bool) (cache : Cache) :
    Except Str (ManifestObj × RollupOptions × Cache) :=
  let manifest := backgroundToModule m
  match manifest.content_scripts with
  | none => Except.ok (manifest, options, cache)
  | some csList =>
    match options.output.getD (OutputField.single {}) with
    | OutputField.single o =>
      let cfn := o.chunkFileNames.getD defaultChunkFileNames
      Except.ok (updateManifestV3Finish manifest csList options
        (OutputField.single { o with chunkFileNames := some cfn }) cfn
        wrapContentScripts { cache with chunkFileNames := some cfn })
    | OutputField.array [] =>
      Except.error (strL "TypeError: Cannot destructure property")
    | OutputField.array (o0 :: rest) =>
      let cfn := o0.chunkFileNames.getD defaultChunkFileNames
      if 2 ≤ (dedupFirst ((o0 :: rest).map
          (fun x => x.chunkFileNames.getD (strL "no cfn")))).length then
        Except.error (strL "Multiple output values for chunkFileNames are not supported")
      else
        Except.ok (updateManifestV3Finish manifest csList options
          (OutputField.array ((o0 :: rest).map
            (fun x => { x with chunkFileNames := some cfn }))) cfn
          wrapContentScripts { cache with chunkFileNames := some cfn })

/-- The manifest of the closed witness for `updateManifestV3_war_spec`. -/
def warWitnessManifest : ManifestObj :=
  { manifest_version := some 3, content_scripts := some [{ js := some [strL "a.js"] }] }

/-- The result triple of the closed witness for `updateManifestV3_war_spec`. -/
def warWitnessRes : ManifestObj × RollupOptions × Cache :=
  ((updateManifestV3 warWitnessManifest {} false {}).toOption).getD ({}, {}, {})

/- ============================================================ -/
/-  options hook: manifest loading stage  (source 2931-3005)    -/
/- ============================================================ -/
/-- The result of `explorer.load(inputManifestPath)` (cosmiconfig, an
    external collaborator): the empty flag, the loaded config object and the
    file path it was loaded from. -/
structure ConfigResult where
  isEmpty : Bool := false
  config : ManifestObj := {}
  filepath : Str := []
deriving DecidableEq

/-- Embedding of the manifest-loading portion of the `options` hook
    (source lines 2947-3005), for an already-located and loaded config
    (`getInputManifestPath` and `explorer.load` are external collaborators
    whose result is the `configResult` argument; `inputDisplay` is the
    string interpolation of `options.input` used in the first error).  In
    order: an empty config throws; a config defining both `options_ui` and
    `options_page` throws; only then is the source directory recorded and
    the default generation overlaid (`manifest_version: 2`, package-metadata
    name/version/description omitted — no claim reads them), and the file
    derivation — supplied as the function `derive`, standing for
    `deriveFiles` applied to the glob collaborator and the
    `{ contentScripts: true }` options — runs on the full manifest.  The
    hook's later stages (permission inference, V3 transformation,
    validation) are outside this stage. -/
def optionsHookLoadManifest (derive : ManifestObj → Str → DerivedFiles)
    (configResult : ConfigResult) (inputDisplay : Str) :
    Except Str (ManifestObj × Str × DerivedFiles) :=
  if configResult.isEmpty then
    Except.error (inputDisplay ++ strL " is an empty file.")
  else if configResult.config.options_ui.isSome && configResult.config.options_page.isSome then
    Except.error (strL "options_ui and options_page cannot both be defined in manifest.json.")
  else
    let srcDir := dirname configResult.filepath
    let fullManifest := { configResult.config with
        manifest_version := some (configResult.config.manifest_version.getD 2) }
    Except.ok (fullManifest, srcDir, derive fullManifest srcDir)

/- ============================================================ -/
/-  Theorems                                                    -/
/- ============================================================ -/

theorem mem_dedupAux {α : Type} [DecidableEq α] (l : List α) :
    ∀ (seen : List α) (a : α), a ∈ dedupAux seen l ↔ (a ∈ l ∧ a ∉ seen) := by
  induction l with
  | nil => intro seen a; simp [dedupAux]
  | cons x xs ih =>
    intro seen a
    by_cases hx : x ∈ seen
    · by_cases hax : a = x
      · subst hax; simp [dedupAux, if_pos hx, ih, hx]
      · simp [dedupAux, if_pos hx, ih, hax]
    · by_cases hax : a = x
      · subst hax; simp [dedupAux, if_neg hx, ih, hx]
      · simp [dedupAux, if_neg hx, ih, hax]

theorem mem_dedupFirst {α : Type} [DecidableEq α] (l : List α) (a : α) :
    a ∈ dedupFirst l ↔ a ∈ l := by
  simp [dedupFirst, mem_dedupAux]

theorem nodup_dedupAux {α : Type} [DecidableEq α] (l : List α) :
    ∀ seen : List α, (dedupAux seen l).Nodup := by
  induction l with
  | nil => intro seen; simp [dedupAux]
  | cons x xs ih =>
    intro seen
    by_cases hx : x ∈ seen
    · simpa [dedupAux, if_pos hx] using ih seen
    · simp only [dedupAux, if_neg hx, List.nodup_cons]
      refine ⟨fun hc => ?_, ih _⟩
      exact ((mem_dedupAux xs (x :: seen) x).mp hc).2 (List.mem_cons_self x seen)

theorem nodup_dedupFirst {α : Type} [DecidableEq α] (l : List α) :
    (dedupFirst l).Nodup := nodup_dedupAux l []

theorem dedupAux_eq_self {α : Type} [DecidableEq α] (l : List α) :
    ∀ seen : List α, l.Nodup → (∀ a ∈ l, a ∉ seen) → dedupAux seen l = l := by
  induction l with
  | nil => intro seen _ _; rfl
  | cons x xs ih =>
    intro seen hnd hdisj
    have hx : x ∉ seen := hdisj x (List.mem_cons_self x xs)
    simp only [dedupAux, if_neg hx]
    have hnd' := List.nodup_cons.mp hnd
    rw [ih (x :: seen) hnd'.2]
    intro a ha
    intro hc
    rcases List.mem_cons.mp hc with rfl | hc
    · exact hnd'.1 ha
    · exact hdisj a (List.mem_cons_of_mem _ ha) hc

theorem dedupFirst_eq_self {α : Type} [DecidableEq α] (l : List α) (h : l.Nodup) :
    dedupFirst l = l := dedupAux_eq_self l [] h (by intro a _ hc; exact absurd hc (List.not_mem_nil a))

theorem startsWithBang_iff (p : Str) :
    startsWithBang p = true ↔ ∃ rest, p = '!' :: rest := by
  cases p with
  | nil => simp [startsWithBang]
  | cons c rest =>
    by_cases hc : c = '!'
    · subst hc; simp [startsWithBang]
    · constructor
      · intro h
        cases c with
        | mk v hv =>
          simp only [startsWithBang] at h
          split at h
          · rename_i heq; rw [List.cons.injEq] at heq; exact absurd heq.1 hc
          · exact absurd h (by simp)
      · rintro ⟨r, hr⟩
        rw [List.cons.injEq] at hr
        exact absurd hr.1 hc

theorem mem_xperms_iff (flat : List Str) (p : Str) :
    p ∈ (flat.filter (fun q => startsWithBang q)).map (List.drop 1) ↔
      ('!' :: p) ∈ flat := by
  constructor
  · intro h
    rcases List.mem_map.mp h with ⟨q, hq, hdrop⟩
    rcases List.mem_filter.mp hq with ⟨hqflat, hqbang⟩
    rcases (startsWithBang_iff q).mp hqbang with ⟨rest, rfl⟩
    simp only [List.drop_succ_cons, List.drop_zero] at hdrop
    subst hdrop; exact hqflat
  · intro h
    refine List.mem_map.mpr ⟨'!' :: p, List.mem_filter.mpr ⟨h, ?_⟩, ?_⟩
    · exact (startsWithBang_iff _).mpr ⟨p, rfl⟩
    · simp

theorem mem_combinePerms (permissions : List (List Str)) (p : Str) :
    p ∈ combinePerms permissions ↔
      (p ∈ permissions.flatten ∧ startsWithBang p = false ∧
        ('!' :: p) ∉ permissions.flatten) := by
  simp only [combinePerms, List.mem_filter, mem_dedupFirst, Bool.not_eq_eq_eq_not,
    Bool.not_true, Bool.not_eq_true']
  constructor
  · rintro ⟨⟨hflat, hbang⟩, hx⟩
    refine ⟨hflat, hbang, fun hc => ?_⟩
    have : p ∈ (permissions.flatten.filter (fun q => startsWithBang q)).map (List.drop 1) :=
      (mem_xperms_iff _ _).mpr hc
    rw [List.contains_eq_any_beq] at hx
    simp only [Bool.not_eq_true', List.any_eq_false, beq_iff_eq] at hx
    exact hx p this rfl
  · rintro ⟨hflat, hbang, hnx⟩
    refine ⟨⟨hflat, hbang⟩, ?_⟩
    rw [List.contains_eq_any_beq]
    simp only [Bool.not_eq_true', List.any_eq_false, beq_iff_eq]
    intro q hq hqe
    subst hqe
    exact hnx ((mem_xperms_iff _ _).mp hq)

theorem nodup_combinePerms (permissions : List (List Str)) :
    (combinePerms permissions).Nodup := (nodup_dedupFirst _).filter _

theorem nobang_combinePerms (permissions : List (List Str)) :
    ∀ p ∈ combinePerms permissions, startsWithBang p = false :=
  fun p hp => ((mem_combinePerms permissions p).mp hp).2.1

/-- C4: `combinePerms` returns exactly the non-`'!'`-prefixed entries whose
    name does not occur `'!'`-prefixed anywhere among the flattened
    arguments; the result contains no `'!'`-prefixed entries and no
    duplicates; and `combinePerms(["a","b","!b"])` equals `["a"]`. -/
theorem combinePerms_spec (permissions : List (List Str)) :
    (∀ p, p ∈ combinePerms permissions ↔
        (p ∈ permissions.flatten ∧ startsWithBang p = false ∧
          ('!' :: p) ∉ permissions.flatten))
    ∧ (combinePerms permissions).Nodup
    ∧ (∀ p, p ∈ combinePerms permissions → startsWithBang p = false)
    ∧ combinePerms [[strL "a", strL "b", strL "!b"]] = [strL "a"] :=
  ⟨mem_combinePerms permissions, nodup_combinePerms permissions,
    nobang_combinePerms permissions, by decide⟩

/-- Closed witness for `combinePerms_spec`. -/
theorem combinePerms_spec_witness :
    startsWithBang (strL "a") = false :=
  (combinePerms_spec [[strL "a", strL "!b"]]).2.2.1 (strL "a") (by decide)

/-- A list of permission strings that is duplicate-free and contains no
    `'!'`-prefixed entry is a fixed point of `combinePerms` applied to the
    singleton argument list. -/
theorem combinePerms_singleton_fixed (r : List Str) (hnd : r.Nodup)
    (hnb : ∀ p ∈ r, startsWithBang p = false) : combinePerms [r] = r := by
  simp only [combinePerms, List.flatten_cons, List.flatten_nil, List.append_nil]
  have h1 : r.filter (fun p => !startsWithBang p) = r :=
    List.filter_eq_self.mpr (fun p hp => by simp [hnb p hp])
  have h2 : r.filter (fun p => startsWithBang p) = [] :=
    List.filter_eq_nil_iff.mpr (fun p hp => by simp [hnb p hp])
  rw [h1, h2, dedupFirst_eq_self r hnd]
  simp

/-- C9 counterexample: permuting entries changes the list returned by
    `combinePerms` (the output order follows first-encounter order), so the
    combination is not commutative up to list equality. -/
theorem combinePerms_not_commutative :
    combinePerms [[strL "a", strL "b"]] ≠ combinePerms [[strL "b", strL "a"]] := by
  decide

/-- C9 (amended): `combinePerms` is commutative only up to permutation —
    permuting the argument lists or the entries within them permutes the
    result (it does not leave it equal) — and it is idempotent under repeated
    application: `combinePerms [combinePerms l] = combinePerms l`. -/
theorem combinePerms_perm_and_idempotent :
    (∀ l₁ l₂ : List (List Str), l₁.flatten.Perm l₂.flatten →
        (combinePerms l₁).Perm (combinePerms l₂))
    ∧ (∀ l : List (List Str), combinePerms [combinePerms l] = combinePerms l) := by
  constructor
  · intro l₁ l₂ hperm
    have hsub : ∀ (a b : List (List Str)), a.flatten.Perm b.flatten →
        combinePerms a ⊆ combinePerms b := by
      intro a b hab p hp
      rcases (mem_combinePerms a p).mp hp with ⟨hf, hb, hnx⟩
      exact (mem_combinePerms b p).mpr
        ⟨hab.mem_iff.mp hf, hb, fun hc => hnx (hab.mem_iff.mpr hc)⟩
    exact (List.subperm_of_subset (nodup_combinePerms l₁) (hsub l₁ l₂ hperm)).antisymm
      (List.subperm_of_subset (nodup_combinePerms l₂) (hsub l₂ l₁ hperm.symm))
  · intro l
    exact combinePerms_singleton_fixed (combinePerms l)
      (nodup_combinePerms l) (nobang_combinePerms l)

/-- Closed witness for `combinePerms_perm_and_idempotent`. -/
theorem combinePerms_perm_and_idempotent_witness :
    (combinePerms [[strL "a", strL "b"]]).Perm (combinePerms [[strL "b", strL "a"]]) :=
  combinePerms_perm_and_idempotent.1 [[strL "a", strL "b"]] [[strL "b", strL "a"]]
    (by decide)

theorem except_bind_ok {ε α β : Type} (a : α) (g : α → Except ε β) :
    (Except.ok a >>= g) = g a := rfl

theorem except_bind_err {ε α β : Type} (e : ε) (g : α → Except ε β) :
    ((Except.error e : Except ε α) >>= g) = Except.error e := rfl

theorem recordReducer_ok (d : Str) (acc : InputRecord) (f : Str)
    (hhead : (acc.any (fun kv => kv.1 = stripName d f) ||
      objectPrototypeKeys.contains (stripName d f)) = false) :
    recordReducer d acc f = Except.ok (acc ++ [(stripName d f, f)]) := by
  simp only [recordReducer]
  rw [if_neg (by rw [hhead]; exact Bool.false_ne_true)]

theorem recordReducer_err (d : Str) (acc : InputRecord) (f : Str)
    (hhead : (acc.any (fun kv => kv.1 = stripName d f) ||
      objectPrototypeKeys.contains (stripName d f)) = true) :
    recordReducer d acc f =
      Except.error (strL "Script files with different extensions should not share names:" ++ f) := by
  simp only [recordReducer]
  rw [if_pos hhead]

theorem foldToRecord_ok (d : Str) :
    ∀ (files : List Str) (acc : InputRecord),
      (files.map (stripName d)).Nodup →
      (∀ f ∈ files, acc.any (fun kv => kv.1 = stripName d f) = false) →
      (∀ f ∈ files, objectPrototypeKeys.contains (stripName d f) = false) →
      files.foldlM (recordReducer d) acc =
        Except.ok (acc ++ files.map (fun f => (stripName d f, f))) := by
  intro files
  induction files with
  | nil =>
    intro acc _ _ _
    simp only [List.map_nil, List.append_nil]
    rfl
  | cons f fs ih =>
    intro acc hnd hdisj hproto
    have hhead : (acc.any (fun kv => kv.1 = stripName d f) ||
        objectPrototypeKeys.contains (stripName d f)) = false := by
      rw [hdisj f (List.mem_cons_self f fs), hproto f (List.mem_cons_self f fs)]
      rfl
    rw [List.foldlM_cons, recordReducer_ok d acc f hhead, except_bind_ok]
    rw [List.map_cons] at hnd
    have hnd' := List.nodup_cons.mp hnd
    rw [ih (acc ++ [(stripName d f, f)]) hnd'.2 ?_
      (fun g hg => hproto g (List.mem_cons_of_mem _ hg))]
    · simp
    · intro g hg
      rw [List.any_append]
      simp only [Bool.or_eq_false_iff]
      refine ⟨hdisj g (List.mem_cons_of_mem _ hg), ?_⟩
      simp only [List.any_cons, List.any_nil, Bool.or_false]
      have : stripName d g ≠ stripName d f := by
        intro hc
        exact hnd'.1 (List.mem_map.mpr ⟨g, hg, hc⟩)
      simp [this.symm]

theorem foldToRecord_err (d : Str) :
    ∀ (files : List Str) (acc : InputRecord),
      ¬ ((files.map (stripName d)).Nodup ∧
          (∀ f ∈ files, acc.any (fun kv => kv.1 = stripName d f) = false) ∧
          (∀ f ∈ files, objectPrototypeKeys.contains (stripName d f) = false)) →
      ∃ e, files.foldlM (recordReducer d) acc = Except.error e := by
  intro files
  induction files with
  | nil =>
    intro acc h
    exact absurd ⟨by simp, by simp, by simp⟩ h
  | cons f fs ih =>
    intro acc h
    by_cases hhead : (acc.any (fun kv => kv.1 = stripName d f) ||
        objectPrototypeKeys.contains (stripName d f)) = true
    · refine ⟨strL "Script files with different extensions should not share names:" ++ f, ?_⟩
      rw [List.foldlM_cons, recordReducer_err d acc f hhead, except_bind_err]
    · have hhead' := Bool.eq_false_iff.mpr hhead
      rw [Bool.or_eq_false_iff] at hhead'
      obtain ⟨hacc, hprotof⟩ := hhead'
      rw [List.foldlM_cons, recordReducer_ok d acc f (by rw [hacc, hprotof]; rfl),
        except_bind_ok]
      refine ih (acc ++ [(stripName d f, f)]) ?_
      rintro ⟨hnd2, hdisj2, hproto2⟩
      refine h ⟨?_, ?_, ?_⟩
      · simp only [List.map_cons, List.nodup_cons]
        refine ⟨fun hc => ?_, hnd2⟩
        rcases List.mem_map.mp hc with ⟨g, hg, hge⟩
        have := hdisj2 g hg
        rw [List.any_append] at this
        simp only [Bool.or_eq_false_iff, List.any_cons, List.any_nil, Bool.or_false] at this
        exact absurd (by simp [hge] : ((stripName d f, f).1 = stripName d g)) (by
          simpa using this.2)
      · intro g hg
        rcases List.mem_cons.mp hg with rfl | hg
        · exact hacc
        · have := hdisj2 g hg
          rw [List.any_append] at this
          simp only [Bool.or_eq_false_iff] at this
          exact this.1
      · intro g hg
        rcases List.mem_cons.mp hg with rfl | hg
        · exact hprotof
        · exact hproto2 g hg

/-- C10 counterexample: the two entries of this list are the *same* path, so
    no two distinct paths share a stripped name and the claim predicts the
    record `{"a": "src/a.js"}`; the code nevertheless throws on the second
    occurrence. -/
theorem reduceToRecord_counterexample :
    (foldToRecord (some (strL "src")) [] [strL "src/a.js", strL "src/a.js"]).isOk = false := by
  decide

/-- C10 (amended): with a null/undefined `srcDir`, `reduceToRecord` throws a
    `TypeError` immediately; with a defined `srcDir`, folding a list of file
    paths throws exactly when either two entries (at distinct positions —
    including two occurrences of the *same* path) produce the same
    srcDir-relative extension-stripped name, or some stripped name coincides
    with an `Object.prototype` property name (which JS `name in inputRecord`
    also sees: the last conjunct shows `['src/toString.js']` throwing);
    otherwise it returns the record mapping each stripped name to its
    original path.  Relative names follow Node `path.relative`, so a file
    outside `srcDir` strips to a `'..'`-prefixed name and does not collide
    with a like-named file inside it. -/
theorem reduceToRecord_spec (d : Str) (files : List Str) :
    (reduceToRecord none = Except.error (strL "srcDir is null or undefined"))
    ∧ (((files.map (stripName d)).Nodup ∧
          ∀ f ∈ files, objectPrototypeKeys.contains (stripName d f) = false) →
        foldToRecord (some d) [] files =
          Except.ok (files.map (fun f => (stripName d f, f))))
    ∧ (¬ ((files.map (stripName d)).Nodup ∧
          ∀ f ∈ files, objectPrototypeKeys.contains (stripName d f) = false) →
        ∃ e, foldToRecord (some d) [] files = Except.error e)
    ∧ (∃ e, foldToRecord (some (strL "src")) [] [strL "src/toString.js"] =
        Except.error e) := by
  refine ⟨rfl, ?_, ?_, ?_⟩
  · rintro ⟨hnd, hproto⟩
    have := foldToRecord_ok d files [] hnd (by intro f _; simp) hproto
    simpa [foldToRecord, reduceToRecord] using this
  · intro hcond
    have := foldToRecord_err d files [] (by
      rintro ⟨h1, _, h3⟩
      exact hcond ⟨h1, h3⟩)
    simpa [foldToRecord, reduceToRecord] using this
  · exact ⟨strL "Script files with different extensions should not share names:" ++
      strL "src/toString.js", by rfl⟩

/-- Closed witness for `reduceToRecord_spec`: `'a.js'` lives outside
    `'src'`, so it strips to `'../a'` and does not collide with
    `'src/a.js'`'s stripped name `'a'`. -/
theorem reduceToRecord_spec_witness :
    foldToRecord (some (strL "src")) [] [strL "a.js", strL "src/a.js"] =
      Except.ok ([strL "a.js", strL "src/a.js"].map
        (fun f => (stripName (strL "src") f, f))) :=
  (reduceToRecord_spec (strL "src") [strL "a.js", strL "src/a.js"]).2.1 (by decide)

theorem contains_iff {α : Type} [BEq α] [LawfulBEq α] (l : List α) (a : α) :
    l.contains a = true ↔ a ∈ l := by
  rw [List.contains_eq_any_beq]
  simp

theorem validate_map (join : Str → Str → Str) (srcDir : Str) (ary : List (Option Str)) :
    validate join srcDir ary = (validate (fun _ x => x) srcDir ary).map (join srcDir) := by
  simp only [validate]
  rw [List.map_map]
  rfl

theorem validate_nodup (join : Str → Str → Str) (srcDir : Str)
    (hinj : Function.Injective (join srcDir)) (ary : List (Option Str)) :
    (validate join srcDir ary).Nodup :=
  (nodup_dedupFirst _).map hinj

theorem mem_validate (join : Str → Str → Str) (srcDir : Str) (ary : List (Option Str)) (a : Str) :
    a ∈ validate join srcDir ary ↔ ∃ x, some x ∈ ary ∧ a = join srcDir x := by
  simp only [validate, List.mem_map, mem_dedupFirst, List.mem_filterMap, id]
  constructor
  · rintro ⟨x, ⟨o, ho, hox⟩, hj⟩
    cases o with
    | none => cases hox
    | some y =>
      cases hox
      exact ⟨x, ho, hj.symm⟩
  · rintro ⟨x, hx, rfl⟩
    exact ⟨x, ⟨some x, hx, rfl⟩, rfl⟩

theorem mem_validate_strings (join : Str → Str → Str) (srcDir : Str) (l : List Str) (a : Str) :
    a ∈ validate join srcDir (l.map some) ↔ ∃ x, x ∈ l ∧ a = join srcDir x := by
  rw [mem_validate]
  constructor
  · rintro ⟨x, hx, rfl⟩
    rcases List.mem_map.mp hx with ⟨y, hy, he⟩
    cases he
    exact ⟨x, hy, rfl⟩
  · rintro ⟨x, hx, rfl⟩
    exact ⟨x, List.mem_map.mpr ⟨x, hx, rfl⟩, rfl⟩

theorem assembleDerived_map (join : Str → Str → Str) (srcDir : Str)
    (files cssR csR imgR : List Str) (jsR htmlR : List (Option Str)) :
    ((assembleDerived join srcDir files cssR csR imgR jsR htmlR).css =
        ((assembleDerived (fun _ x => x) srcDir files cssR csR imgR jsR htmlR).css).map (join srcDir))
    ∧ ((assembleDerived join srcDir files cssR csR imgR jsR htmlR).contentScripts =
        ((assembleDerived (fun _ x => x) srcDir files cssR csR imgR jsR htmlR).contentScripts).map (join srcDir))
    ∧ ((assembleDerived join srcDir files cssR csR imgR jsR htmlR).js =
        ((assembleDerived (fun _ x => x) srcDir files cssR csR imgR jsR htmlR).js).map (join srcDir))
    ∧ ((assembleDerived join srcDir files cssR csR imgR jsR htmlR).html =
        ((assembleDerived (fun _ x => x) srcDir files cssR csR imgR jsR htmlR).html).map (join srcDir))
    ∧ ((assembleDerived join srcDir files cssR csR imgR jsR htmlR).img =
        ((assembleDerived (fun _ x => x) srcDir files cssR csR imgR jsR htmlR).img).map (join srcDir))
    ∧ ((assembleDerived join srcDir files cssR csR imgR jsR htmlR).others =
        ((assembleDerived (fun _ x => x) srcDir files cssR csR imgR jsR htmlR).others).map (join srcDir)) :=
  ⟨validate_map _ _ _, validate_map _ _ _, validate_map _ _ _,
    validate_map _ _ _, validate_map _ _ _, validate_map _ _ _⟩

theorem assembleDerived_spec (join : Str → Str → Str) (srcDir : Str)
    (hinj : Function.Injective (join srcDir)) (files cssR csR imgR : List Str)
    (jsR htmlR : List (Option Str)) :
    ((assembleDerived join srcDir files cssR csR imgR jsR htmlR).css.Nodup
      ∧ (assembleDerived join srcDir files cssR csR imgR jsR htmlR).contentScripts.Nodup
      ∧ (assembleDerived join srcDir files cssR csR imgR jsR htmlR).js.Nodup
      ∧ (assembleDerived join srcDir files cssR csR imgR jsR htmlR).html.Nodup
      ∧ (assembleDerived join srcDir files cssR csR imgR jsR htmlR).img.Nodup
      ∧ (assembleDerived join srcDir files cssR csR imgR jsR htmlR).others.Nodup)
    ∧ (∀ p ∈ (assembleDerived join srcDir files cssR csR imgR jsR htmlR).others,
        p ∉ (assembleDerived join srcDir files cssR csR imgR jsR htmlR).css
        ∧ p ∉ (assembleDerived join srcDir files cssR csR imgR jsR htmlR).contentScripts
        ∧ p ∉ (assembleDerived join srcDir files cssR csR imgR jsR htmlR).js
        ∧ p ∉ (assembleDerived join srcDir files cssR csR imgR jsR htmlR).html
        ∧ p ∉ (assembleDerived join srcDir files cssR csR imgR jsR htmlR).img) := by
  constructor
  · exact ⟨validate_nodup _ _ hinj _, validate_nodup _ _ hinj _, validate_nodup _ _ hinj _,
      validate_nodup _ _ hinj _, validate_nodup _ _ hinj _, validate_nodup _ _ hinj _⟩
  · intro p hp
    simp only [assembleDerived] at hp
    rcases (mem_validate_strings join srcDir _ p).mp hp with ⟨x, hx, rfl⟩
    rcases List.mem_filter.mp hx with ⟨hxfiles, hcond⟩
    simp only [Bool.not_eq_eq_eq_not, Bool.not_true, Bool.or_eq_false_iff] at hcond
    obtain ⟨⟨⟨⟨hcss, hcs⟩, hjs⟩, hhtml⟩, himg⟩ := hcond
    refine ⟨fun hc => ?_, fun hc => ?_, fun hc => ?_, fun hc => ?_, fun hc => ?_⟩
    · rcases (mem_validate_strings join srcDir _ _).mp hc with ⟨y, hy, he⟩
      cases hinj he
      rw [← contains_iff, hcss] at hy
      exact Bool.false_ne_true hy
    · rcases (mem_validate_strings join srcDir _ _).mp hc with ⟨y, hy, he⟩
      cases hinj he
      rw [← contains_iff, hcs] at hy
      exact Bool.false_ne_true hy
    · rcases (mem_validate join srcDir _ _).mp hc with ⟨y, hy, he⟩
      cases hinj he
      rw [← contains_iff, hjs] at hy
      exact Bool.false_ne_true hy
    · rcases (mem_validate join srcDir _ _).mp hc with ⟨y, hy, he⟩
      cases hinj he
      rw [← contains_iff, hhtml] at hy
      exact Bool.false_ne_true hy
    · rcases (mem_validate_strings join srcDir _ _).mp hc with ⟨y, hy, he⟩
      cases hinj he
      rw [← contains_iff, himg] at hy
      exact Bool.false_ne_true hy

theorem deriveFiles_map (join : Str → Str → Str) (globSync : Str → List Str)
    (m : ManifestObj) (srcDir : Str) (options : DeriveOptions) :
    ((deriveFiles join globSync m srcDir options).css = ((deriveFilesRelative globSync m srcDir options).css).map (join srcDir))
    ∧ ((deriveFiles join globSync m srcDir options).contentScripts = ((deriveFilesRelative globSync m srcDir options).contentScripts).map (join srcDir))
    ∧ ((deriveFiles join globSync m srcDir options).js = ((deriveFilesRelative globSync m srcDir options).js).map (join srcDir))
    ∧ ((deriveFiles join globSync m srcDir options).html = ((deriveFilesRelative globSync m srcDir options).html).map (join srcDir))
    ∧ ((deriveFiles join globSync m srcDir options).img = ((deriveFilesRelative globSync m srcDir options).img).map (join srcDir))
    ∧ ((deriveFiles join globSync m srcDir options).others = ((deriveFilesRelative globSync m srcDir options).others).map (join srcDir)) := by
  unfold deriveFilesRelative deriveFiles
  by_cases h : m.manifest_version = some 3
  · rw [if_pos h, if_pos h]
    unfold deriveFilesMV3
    exact assembleDerived_map _ _ _ _ _ _ _ _
  · rw [if_neg h, if_neg h]
    unfold deriveFilesMV2
    exact assembleDerived_map _ _ _ _ _ _ _ _

theorem deriveFilesRelative_spec (globSync : Str → List Str) (m : ManifestObj)
    (srcDir : Str) (options : DeriveOptions) :
    ((deriveFilesRelative globSync m srcDir options).css.Nodup
      ∧ (deriveFilesRelative globSync m srcDir options).contentScripts.Nodup
      ∧ (deriveFilesRelative globSync m srcDir options).js.Nodup
      ∧ (deriveFilesRelative globSync m srcDir options).html.Nodup
      ∧ (deriveFilesRelative globSync m srcDir options).img.Nodup
      ∧ (deriveFilesRelative globSync m srcDir options).others.Nodup)
    ∧ (∀ p ∈ (deriveFilesRelative globSync m srcDir options).others,
        p ∉ (deriveFilesRelative globSync m srcDir options).css
        ∧ p ∉ (deriveFilesRelative globSync m srcDir options).contentScripts
        ∧ p ∉ (deriveFilesRelative globSync m srcDir options).js
        ∧ p ∉ (deriveFilesRelative globSync m srcDir options).html
        ∧ p ∉ (deriveFilesRelative globSync m srcDir options).img) := by
  unfold deriveFilesRelative deriveFiles
  by_cases h : m.manifest_version = some 3
  · rw [if_pos h]
    unfold deriveFilesMV3
    exact assembleDerived_spec _ _ (fun a b hab => hab) _ _ _ _ _ _
  · rw [if_neg h]
    unfold deriveFilesMV2
    exact assembleDerived_spec _ _ (fun a b hab => hab) _ _ _ _ _ _

/-- C1 counterexample: an MV3 manifest with the single content script
    `a.js`, derived with the `contentScripts: true` option (which the
    plugin's `options` hook always passes, source line 3003), yields
    `src/a.js` in both the `js` and the `contentScripts` categories, so the
    six categories are not pairwise disjoint. -/
theorem deriveFiles_not_disjoint :
    strL "src/a.js" ∈ (deriveFiles pathJoin (fun _ => [])
        { manifest_version := some 3,
          content_scripts := some [{ js := some [strL "a.js"] }] }
        (strL "src") { contentScripts := true }).js
    ∧ strL "src/a.js" ∈ (deriveFiles pathJoin (fun _ => [])
        { manifest_version := some 3,
          content_scripts := some [{ js := some [strL "a.js"] }] }
        (strL "src") { contentScripts := true }).contentScripts := by
  decide

/-- C1 (amended): for every manifest (either generation), source directory,
    glob listing, options and join function standing for Node `path.join`:
    every `deriveFiles` category is the image under the join of its
    srcDir-relative entry list (`deriveFilesRelative`); those relative entry
    lists are each duplicate-free (the `new Set` de-duplication runs BEFORE
    the join), and the relative entries of `others` appear in none of the
    other five categories.  Consequently, whenever the join is injective on
    the derived relative entries, every joined category is duplicate-free
    and `others` is disjoint from the five other categories.  Node's
    normalizing `path.join` is not injective in general: the final conjunct
    shows two distinct spellings (`'a.png'` and `'./a.png'`) collapsing to
    the same joined path, leaving a duplicate in `img`.  Pairwise
    disjointness of the six categories fails even relative to an injective
    join (see the counterexample: `js` contains every content script). -/
theorem deriveFiles_spec (join : Str → Str → Str) (globSync : Str → List Str)
    (m : ManifestObj) (srcDir : Str) (options : DeriveOptions) :
    (((deriveFiles join globSync m srcDir options).css = ((deriveFilesRelative globSync m srcDir options).css).map (join srcDir))
      ∧ ((deriveFiles join globSync m srcDir options).contentScripts = ((deriveFilesRelative globSync m srcDir options).contentScripts).map (join srcDir))
      ∧ ((deriveFiles join globSync m srcDir options).js = ((deriveFilesRelative globSync m srcDir options).js).map (join srcDir))
      ∧ ((deriveFiles join globSync m srcDir options).html = ((deriveFilesRelative globSync m srcDir options).html).map (join srcDir))
      ∧ ((deriveFiles join globSync m srcDir options).img = ((deriveFilesRelative globSync m srcDir options).img).map (join srcDir))
      ∧ ((deriveFiles join globSync m srcDir options).others = ((deriveFilesRelative globSync m srcDir options).others).map (join srcDir)))
    ∧ ((deriveFilesRelative globSync m srcDir options).css.Nodup
      ∧ (deriveFilesRelative globSync m srcDir options).contentScripts.Nodup
      ∧ (deriveFilesRelative globSync m srcDir options).js.Nodup
      ∧ (deriveFilesRelative globSync m srcDir options).html.Nodup
      ∧ (deriveFilesRelative globSync m srcDir options).img.Nodup
      ∧ (deriveFilesRelative globSync m srcDir options).others.Nodup)
    ∧ (∀ p ∈ (deriveFilesRelative globSync m srcDir options).others,
        p ∉ (deriveFilesRelative globSync m srcDir options).css
        ∧ p ∉ (deriveFilesRelative globSync m srcDir options).contentScripts
        ∧ p ∉ (deriveFilesRelative globSync m srcDir options).js
        ∧ p ∉ (deriveFilesRelative globSync m srcDir options).html
        ∧ p ∉ (deriveFilesRelative globSync m srcDir options).img)
    ∧ ((∀ x ∈ (deriveFilesRelative globSync m srcDir options).css ++ (deriveFilesRelative globSync m srcDir options).contentScripts ++ (deriveFilesRelative globSync m srcDir options).js ++
          (deriveFilesRelative globSync m srcDir options).html ++ (deriveFilesRelative globSync m srcDir options).img ++ (deriveFilesRelative globSync m srcDir options).others,
        ∀ y ∈ (deriveFilesRelative globSync m srcDir options).css ++ (deriveFilesRelative globSync m srcDir options).contentScripts ++ (deriveFilesRelative globSync m srcDir options).js ++
          (deriveFilesRelative globSync m srcDir options).html ++ (deriveFilesRelative globSync m srcDir options).img ++ (deriveFilesRelative globSync m srcDir options).others,
          join srcDir x = join srcDir y → x = y) →
        ((deriveFiles join globSync m srcDir options).css.Nodup
          ∧ (deriveFiles join globSync m srcDir options).contentScripts.Nodup
          ∧ (deriveFiles join globSync m srcDir options).js.Nodup
          ∧ (deriveFiles join globSync m srcDir options).html.Nodup
          ∧ (deriveFiles join globSync m srcDir options).img.Nodup
          ∧ (deriveFiles join globSync m srcDir options).others.Nodup)
        ∧ (∀ p ∈ (deriveFiles join globSync m srcDir options).others,
            p ∉ (deriveFiles join globSync m srcDir options).css
            ∧ p ∉ (deriveFiles join globSync m srcDir options).contentScripts
            ∧ p ∉ (deriveFiles join globSync m srcDir options).js
            ∧ p ∉ (deriveFiles join globSync m srcDir options).html
            ∧ p ∉ (deriveFiles join globSync m srcDir options).img))
    ∧ ¬ (deriveFiles pathJoin (fun _ => [])
        { manifest_version := some 3,
          web_accessible_resources :=
            some [{ resources := [strL "a.png", strL "./a.png"] }] }
        (strL "src") { contentScripts := false }).img.Nodup := by
  have hmap := deriveFiles_map join globSync m srcDir options
  have hrel := deriveFilesRelative_spec globSync m srcDir options
  obtain ⟨hm1, hm2, hm3, hm4, hm5, hm6⟩ := hmap
  obtain ⟨⟨hn1, hn2, hn3, hn4, hn5, hn6⟩, hdisj⟩ := hrel
  refine ⟨⟨hm1, hm2, hm3, hm4, hm5, hm6⟩, ⟨hn1, hn2, hn3, hn4, hn5, hn6⟩, hdisj, ?_, by decide⟩
  intro hinj
  have hinj2 : ∀ x y,
      (x ∈ (deriveFilesRelative globSync m srcDir options).css ∨ x ∈ (deriveFilesRelative globSync m srcDir options).contentScripts ∨ x ∈ (deriveFilesRelative globSync m srcDir options).js ∨
        x ∈ (deriveFilesRelative globSync m srcDir options).html ∨ x ∈ (deriveFilesRelative globSync m srcDir options).img ∨ x ∈ (deriveFilesRelative globSync m srcDir options).others) →
      (y ∈ (deriveFilesRelative globSync m srcDir options).css ∨ y ∈ (deriveFilesRelative globSync m srcDir options).contentScripts ∨ y ∈ (deriveFilesRelative globSync m srcDir options).js ∨
        y ∈ (deriveFilesRelative globSync m srcDir options).html ∨ y ∈ (deriveFilesRelative globSync m srcDir options).img ∨ y ∈ (deriveFilesRelative globSync m srcDir options).others) →
      join srcDir x = join srcDir y → x = y := by
    intro x y hx hy he
    refine hinj x ?_ y ?_ he
    · simp only [List.mem_append]
      tauto
    · simp only [List.mem_append]
      tauto
  constructor
  · refine ⟨?_, ?_, ?_, ?_, ?_, ?_⟩
    · rw [hm1]
      exact hn1.map_on (fun x hx y hy he => hinj2 x y (Or.inl hx) (Or.inl hy) he)
    · rw [hm2]
      exact hn2.map_on (fun x hx y hy he =>
        hinj2 x y (Or.inr (Or.inl hx)) (Or.inr (Or.inl hy)) he)
    · rw [hm3]
      exact hn3.map_on (fun x hx y hy he =>
        hinj2 x y (Or.inr (Or.inr (Or.inl hx))) (Or.inr (Or.inr (Or.inl hy))) he)
    · rw [hm4]
      exact hn4.map_on (fun x hx y hy he =>
        hinj2 x y (Or.inr (Or.inr (Or.inr (Or.inl hx))))
          (Or.inr (Or.inr (Or.inr (Or.inl hy)))) he)
    · rw [hm5]
      exact hn5.map_on (fun x hx y hy he =>
        hinj2 x y (Or.inr (Or.inr (Or.inr (Or.inr (Or.inl hx)))))
          (Or.inr (Or.inr (Or.inr (Or.inr (Or.inl hy))))) he)
    · rw [hm6]
      exact hn6.map_on (fun x hx y hy he =>
        hinj2 x y (Or.inr (Or.inr (Or.inr (Or.inr (Or.inr hx)))))
          (Or.inr (Or.inr (Or.inr (Or.inr (Or.inr hy))))) he)
  · intro p hp
    rw [hm6] at hp
    rcases List.mem_map.mp hp with ⟨x, hx, rfl⟩
    have hxd := hdisj x hx
    refine ⟨fun hc => ?_, fun hc => ?_, fun hc => ?_, fun hc => ?_, fun hc => ?_⟩
    · rw [hm1] at hc
      rcases List.mem_map.mp hc with ⟨y, hy, he⟩
      cases hinj2 y x (Or.inl hy) (Or.inr (Or.inr (Or.inr (Or.inr (Or.inr hx))))) he
      exact hxd.1 hy
    · rw [hm2] at hc
      rcases List.mem_map.mp hc with ⟨y, hy, he⟩
      cases hinj2 y x (Or.inr (Or.inl hy))
        (Or.inr (Or.inr (Or.inr (Or.inr (Or.inr hx))))) he
      exact hxd.2.1 hy
    · rw [hm3] at hc
      rcases List.mem_map.mp hc with ⟨y, hy, he⟩
      cases hinj2 y x (Or.inr (Or.inr (Or.inl hy)))
        (Or.inr (Or.inr (Or.inr (Or.inr (Or.inr hx))))) he
      exact hxd.2.2.1 hy
    · rw [hm4] at hc
      rcases List.mem_map.mp hc with ⟨y, hy, he⟩
      cases hinj2 y x (Or.inr (Or.inr (Or.inr (Or.inl hy))))
        (Or.inr (Or.inr (Or.inr (Or.inr (Or.inr hx))))) he
      exact hxd.2.2.2.1 hy
    · rw [hm5] at hc
      rcases List.mem_map.mp hc with ⟨y, hy, he⟩
      cases hinj2 y x (Or.inr (Or.inr (Or.inr (Or.inr (Or.inl hy)))))
        (Or.inr (Or.inr (Or.inr (Or.inr (Or.inr hx))))) he
      exact hxd.2.2.2.2 hy

/-- Closed witness for `deriveFiles_spec`: on a manifest whose only derived
    relative entry is `x.woff`, `pathJoin` is injective on the entries, so
    the joined `others` member `src/x.woff` is absent from `js`. -/
theorem deriveFiles_spec_witness :
    strL "src/x.woff" ∉ (deriveFiles pathJoin (fun _ => [])
        { manifest_version := some 3,
          web_accessible_resources := some [{ resources := [strL "x.woff"] }] }
        (strL "src") { contentScripts := true }).js :=
  (((deriveFiles_spec pathJoin (fun _ => [])
        { manifest_version := some 3,
          web_accessible_resources := some [{ resources := [strL "x.woff"] }] }
        (strL "src") { contentScripts := true }).2.2.2.1 (by decide)).2
    (strL "src/x.woff") (by decide)).2.2.1

/-- C5 counterexample: on a `manifest.json` change the claim says the
    accumulated permission hash is cleared; the code leaves `permsHash`
    untouched (it forces re-inference via `assetChanged = false` instead):
    a cache whose `permsHash` is `'["tabs"]'` keeps it after
    `watchChange('src/manifest.json')`. -/
theorem watchChange_counterexample :
    (watchChange { permsHash := strL "[\x22tabs\x22]" } (strL "src/manifest.json")).permsHash =
      strL "[\x22tabs\x22]" := by
  decide

/-- C5 (amended): when the changed path does not end in `'manifest.json'`,
    only that path's entry of the cached file-read map is evicted and
    `assetChanged` records whether it was present; `cache.manifest`,
    `cache.input`, `cache.assets` and `cache.permsHash` are unchanged (so the
    next `options` hook, which reloads and re-derives only when
    `cache.manifest` is unset, does not re-derive).  When the path ends in
    `'manifest.json'`, `cache.manifest` is discarded — forcing reload,
    re-derivation and re-validation on the next pass — and `assetChanged` is
    reset to `false`; the accumulated permission hash `cache.permsHash` is
    NOT cleared (recomputation is instead forced through
    `assetChanged = false`). -/
theorem watchChange_spec (cache : Cache) (id : Str) :
    (manifestName.isSuffixOf id = false →
      (watchChange cache id).manifest = cache.manifest
      ∧ (watchChange cache id).input = cache.input
      ∧ (watchChange cache id).assets = cache.assets
      ∧ (watchChange cache id).permsHash = cache.permsHash
      ∧ (watchChange cache id).readFile = cache.readFile.filter (fun kv => kv.1 ≠ id)
      ∧ (watchChange cache id).assetChanged = cache.readFile.any (fun kv => kv.1 = id)
      ∧ (∀ k v, k ≠ id →
          ((k, v) ∈ (watchChange cache id).readFile ↔ (k, v) ∈ cache.readFile))
      ∧ (∀ v, (id, v) ∉ (watchChange cache id).readFile))
    ∧ (manifestName.isSuffixOf id = true →
      (watchChange cache id).manifest = none
      ∧ (watchChange cache id).assetChanged = false
      ∧ (watchChange cache id).permsHash = cache.permsHash
      ∧ (watchChange cache id).readFile = cache.readFile
      ∧ (watchChange cache id).input = cache.input
      ∧ (watchChange cache id).assets = cache.assets) := by
  constructor
  · intro h
    have hw : watchChange cache id =
        { cache with
            assetChanged := cache.readFile.any (fun kv => kv.1 = id),
            readFile := cache.readFile.filter (fun kv => kv.1 ≠ id) } := by
      simp [watchChange, h]
    rw [hw]
    refine ⟨rfl, rfl, rfl, rfl, rfl, rfl, ?_, ?_⟩
    · intro k v hk
      simp only [List.mem_filter]
      constructor
      · rintro ⟨hm, _⟩; exact hm
      · intro hm; exact ⟨hm, by simpa using hk⟩
    · intro v hc
      rcases List.mem_filter.mp hc with ⟨_, hdec⟩
      simp at hdec
  · intro h
    simp [watchChange, h]

/-- Closed witness for `watchChange_spec`. -/
theorem watchChange_spec_witness :
    (watchChange { readFile := [(strL "src/icon.png", strL "bytes")],
                   permsHash := strL "h" } (strL "src/icon.png")).permsHash = strL "h" :=
  ((watchChange_spec { readFile := [(strL "src/icon.png", strL "bytes")],
                       permsHash := strL "h" } (strL "src/icon.png")).1 (by decide)).2.2.2.1

theorem strL_http : strL "http://" = ['h', 't', 't', 'p', ':', '/', '/'] := rfl

theorem consHead_cons (c : Char) (h : Str) (t : List Str) :
    consHead c (h :: t) = (c :: h) :: t := rfl

theorem placeholderPort_cons_ne (c : Char) (rest : Str) (hc : c ≠ ':') :
    splitOnPlaceholderPort (c :: rest) = consHead c (splitOnPlaceholderPort rest) := by
  rw [splitOnPlaceholderPort.eq_def]
  split
  · rename_i heq; simp at heq
  · rename_i heq
    rw [List.cons.injEq] at heq
    exact absurd heq.1 hc
  · rename_i heq
    rw [List.cons.injEq] at heq
    obtain ⟨rfl, rfl⟩ := heq
    rfl

theorem placeholderPort_no_colon (l : Str) (h : ∀ c ∈ l, c ≠ ':') :
    splitOnPlaceholderPort l = [l] := by
  induction l with
  | nil => rfl
  | cons c rest ih =>
    rw [placeholderPort_cons_ne c rest (h c (List.mem_cons_self c rest)),
      ih (fun x hx => h x (List.mem_cons_of_mem _ hx)), consHead_cons]

theorem backgroundToModule_proj (m : ManifestObj) :
    (backgroundToModule m).content_scripts = m.content_scripts
    ∧ (backgroundToModule m).host_permissions = m.host_permissions
    ∧ (backgroundToModule m).web_accessible_resources = m.web_accessible_resources := by
  rcases hbg : m.background with _ | bg <;> simp [backgroundToModule, hbg]

theorem updateManifestV3Finish_spec (manifest : ManifestObj) (csList : List ContentScript)
    (options : RollupOptions) (output' : OutputField) (cfn : Str) (wrap : Bool)
    (cache : Cache) :
    ((updateManifestV3Finish manifest csList options output' cfn wrap cache).1.web_accessible_resources =
      some (manifest.web_accessible_resources.getD [] ++
        [{ resources := chunkGlob cfn ::
             cache.contentScripts.map (fun x => slash (relative cache.srcDir x)),
           matches' := dedupFirst ((csList.flatMap (fun c => c.matches'.getD []) ++
             manifest.host_permissions.getD []).map convertMatchPatterns) }]))
    ∧ ((updateManifestV3Finish manifest csList options output' cfn wrap cache).2.1 =
        (match options.output with
         | none => options
         | some _ => { options with output := some output' }))
    ∧ ((updateManifestV3Finish manifest csList options output' cfn wrap cache).2.2 = cache) := by
  cases wrap <;> simp [updateManifestV3Finish]

/-- C2: for every MV3 manifest declaring at least one content script, a
    successful `updateManifestV3` appends exactly one new rule to
    `web_accessible_resources` (the existing rules are kept as a prefix and
    the length grows by one); the rule's `matches` is the duplicate-free
    union of the converted match patterns of all content scripts and all
    `host_permissions` entries (a shared pattern appears once), and its
    `resources` is the chunk-file-name template with its placeholders
    wildcarded, followed by the source-relative path of every cached
    content-script file. -/
theorem updateManifestV3_war_spec (m : ManifestObj) (options : RollupOptions)
    (wrap : Bool) (cache : Cache) (cs : List ContentScript)
    (res : ManifestObj × RollupOptions × Cache)
    (hcs : m.content_scripts = some cs) (hne : cs ≠ [])
    (hok : updateManifestV3 m options wrap cache = Except.ok res) :
    (res.1.web_accessible_resources =
      some (m.web_accessible_resources.getD [] ++
        [{ resources := chunkGlob (resolvedChunkFileNames options) ::
             cache.contentScripts.map (fun x => slash (relative cache.srcDir x)),
           matches' := dedupFirst ((cs.flatMap (fun c => c.matches'.getD []) ++
             m.host_permissions.getD []).map convertMatchPatterns) }]))
    ∧ (res.1.web_accessible_resources.getD []).length =
        (m.web_accessible_resources.getD []).length + 1
    ∧ (dedupFirst ((cs.flatMap (fun c => c.matches'.getD []) ++
        m.host_permissions.getD []).map convertMatchPatterns)).Nodup
    ∧ (∀ p, p ∈ dedupFirst ((cs.flatMap (fun c => c.matches'.getD []) ++
          m.host_permissions.getD []).map convertMatchPatterns) ↔
        p ∈ (cs.flatMap (fun c => c.matches'.getD []) ++
          m.host_permissions.getD []).map convertMatchPatterns) := by
  have hcs' : (backgroundToModule m).content_scripts = some cs :=
    (backgroundToModule_proj m).1.trans hcs
  have hwar := (backgroundToModule_proj m).2.2
  have hhp := (backgroundToModule_proj m).2.1
  have hres1 : res.1.web_accessible_resources =
      some (m.web_accessible_resources.getD [] ++
        [{ resources := chunkGlob (resolvedChunkFileNames options) ::
             cache.contentScripts.map (fun x => slash (relative cache.srcDir x)),
           matches' := dedupFirst ((cs.flatMap (fun c => c.matches'.getD []) ++
             m.host_permissions.getD []).map convertMatchPatterns) }]) := by
    cases hout : options.output with
    | none =>
      simp only [updateManifestV3, hcs', hout, Option.getD_none] at hok
      rw [Except.ok.injEq] at hok
      rw [← hok]
      rw [(updateManifestV3Finish_spec _ _ _ _ _ _ _).1, hwar, hhp]
      simp [resolvedChunkFileNames, hout]
    | some outf =>
      cases outf with
      | single o =>
        simp only [updateManifestV3, hcs', hout, Option.getD_some] at hok
        rw [Except.ok.injEq] at hok
        rw [← hok]
        rw [(updateManifestV3Finish_spec _ _ _ _ _ _ _).1, hwar, hhp]
        simp [resolvedChunkFileNames, hout]
      | array os =>
        cases os with
        | nil =>
          simp only [updateManifestV3, hcs', hout, Option.getD_some] at hok
          cases hok
        | cons o0 rest =>
          simp only [updateManifestV3, hcs', hout, Option.getD_some] at hok
          by_cases hlen : 2 ≤ (dedupFirst ((o0 :: rest).map
              (fun x => x.chunkFileNames.getD (strL "no cfn")))).length
          · rw [if_pos hlen] at hok
            cases hok
          · rw [if_neg hlen] at hok
            rw [Except.ok.injEq] at hok
            rw [← hok]
            rw [(updateManifestV3Finish_spec _ _ _ _ _ _ _).1, hwar, hhp]
            simp [resolvedChunkFileNames, hout]
  refine ⟨hres1, ?_, nodup_dedupFirst _, fun p => mem_dedupFirst _ p⟩
  rw [hres1]
  simp

/-- Closed witness for `updateManifestV3_war_spec`. -/
theorem updateManifestV3_war_spec_witness :
    (warWitnessRes.1.web_accessible_resources.getD []).length =
      (warWitnessManifest.web_accessible_resources.getD []).length + 1 :=
  (updateManifestV3_war_spec warWitnessManifest {} false {}
    [{ js := some [strL "a.js"] }] warWitnessRes rfl (by decide) rfl).2.1

/-- C6: for an MV3 manifest with content scripts and an array-valued
    rollup `output` option, `updateManifestV3` throws the configuration
    `TypeError` `'Multiple output values for chunkFileNames are not
    supported'` — instead of synthesizing a resource-access rule — exactly
    when the array elements carry more than one distinct
    `chunkFileNames ?? 'no cfn'` value; with at most one distinct value it
    never throws for this reason. -/
theorem updateManifestV3_ambiguous_cfn (m : ManifestObj) (options : RollupOptions)
    (wrap : Bool) (cache : Cache) (cs : List ContentScript) (os : List OutputOptions)
    (hcs : m.content_scripts = some cs)
    (hout : options.output = some (OutputField.array os)) :
    (updateManifestV3 m options wrap cache =
        Except.error (strL "Multiple output values for chunkFileNames are not supported"))
      ↔ 2 ≤ (dedupFirst (os.map (fun x => x.chunkFileNames.getD (strL "no cfn")))).length := by
  have hcs' : (backgroundToModule m).content_scripts = some cs :=
    (backgroundToModule_proj m).1.trans hcs
  cases os with
  | nil =>
    simp only [updateManifestV3, hcs', hout, Option.getD_some, List.map_nil]
    constructor
    · intro h
      rw [Except.error.injEq] at h
      exact absurd h (by decide)
    · intro h
      exact absurd h (by decide)
  | cons o0 rest =>
    simp only [updateManifestV3, hcs', hout, Option.getD_some]
    by_cases hlen : 2 ≤ (dedupFirst ((o0 :: rest).map
        (fun x => x.chunkFileNames.getD (strL "no cfn")))).length
    · rw [if_pos hlen]
      constructor
      · intro _
        simpa using hlen
      · intro _
        rfl
    · rw [if_neg hlen]
      constructor
      · intro h
        cases h
      · intro h
        exact absurd h hlen

/-- Closed witness for `updateManifestV3_ambiguous_cfn`: two distinct
    `chunkFileNames` values across the output array make the call throw. -/
theorem updateManifestV3_ambiguous_cfn_witness :
    updateManifestV3 { manifest_version := some 3,
                       content_scripts := some [{ js := some [strL "a.js"] }] }
      { output := some (OutputField.array [{ chunkFileNames := some (strL "x-[name].js") },
                                           { chunkFileNames := some (strL "y-[name].js") }]) }
      false {} =
      Except.error (strL "Multiple output values for chunkFileNames are not supported") :=
  (updateManifestV3_ambiguous_cfn _ _ false {} [{ js := some [strL "a.js"] }]
    [{ chunkFileNames := some (strL "x-[name].js") },
     { chunkFileNames := some (strL "y-[name].js") }] rfl rfl).mpr (by decide)

/-- C8 counterexample: `updateManifestV3` mutates its `options` argument.
    With a manifest declaring one content script and `options.output` a
    single object without `chunkFileNames`, the returned options carry
    `chunkFileNames` set to the default template, so the options value is
    changed. -/
theorem updateManifestV3_not_pure :
    (updateManifestV3
        { manifest_version := some 3, content_scripts := some [{ js := some [strL "a.js"] }] }
        { output := some (OutputField.single {}) } false {}).toOption.map
        (fun r => r.2.1) ≠
      some { output := some (OutputField.single {}) } := by
  decide

/-- C8 (amended): `updateManifestV3` never writes through its manifest
    argument (it transforms a deep clone and returns the transformed copy),
    but it is pure in neither `options` nor the cache: when the manifest has
    `content_scripts` and `options.output` is defined, every output
    element's `chunkFileNames` is set to the resolved chunk-file-name
    template and `cache.chunkFileNames` records it; `options` survives
    unchanged only when the manifest has no `content_scripts` or
    `options.output` is undefined (the JS destructuring default `{}` is a
    fresh object), and the cache only in the former case. -/
theorem updateManifestV3_mutation_spec (m : ManifestObj) (options : RollupOptions)
    (wrap : Bool) (cache : Cache) (res : ManifestObj × RollupOptions × Cache)
    (hok : updateManifestV3 m options wrap cache = Except.ok res) :
    (m.content_scripts = none → res.2.1 = options ∧ res.2.2 = cache)
    ∧ (options.output = none → res.2.1 = options)
    ∧ (∀ cs o, m.content_scripts = some cs →
        options.output = some (OutputField.single o) →
        res.2.1 = { options with output := some (OutputField.single
          { o with chunkFileNames := some (resolvedChunkFileNames options) }) })
    ∧ (∀ cs os, m.content_scripts = some cs →
        options.output = some (OutputField.array os) →
        res.2.1 = { options with output := some (OutputField.array
          (os.map (fun x =>
            { x with chunkFileNames := some (resolvedChunkFileNames options) }))) })
    ∧ (∀ cs, m.content_scripts = some cs →
        res.2.2 = { cache with chunkFileNames := some (resolvedChunkFileNames options) }) := by
  refine ⟨?_, ?_, ?_, ?_, ?_⟩
  · intro hnone
    have hcs' : (backgroundToModule m).content_scripts = none :=
      (backgroundToModule_proj m).1.trans hnone
    simp only [updateManifestV3, hcs'] at hok
    rw [Except.ok.injEq] at hok
    rw [← hok]
    exact ⟨rfl, rfl⟩
  · intro hout
    cases hcsm : m.content_scripts with
    | none =>
      have hcs' : (backgroundToModule m).content_scripts = none :=
        (backgroundToModule_proj m).1.trans hcsm
      simp only [updateManifestV3, hcs'] at hok
      rw [Except.ok.injEq] at hok
      rw [← hok]
    | some cs =>
      have hcs' : (backgroundToModule m).content_scripts = some cs :=
        (backgroundToModule_proj m).1.trans hcsm
      simp only [updateManifestV3, hcs', hout, Option.getD_none] at hok
      rw [Except.ok.injEq] at hok
      rw [← hok]
      rw [(updateManifestV3Finish_spec _ _ _ _ _ _ _).2.1, hout]
  · intro cs o hcsm hout
    have hcs' : (backgroundToModule m).content_scripts = some cs :=
      (backgroundToModule_proj m).1.trans hcsm
    simp only [updateManifestV3, hcs', hout, Option.getD_some] at hok
    rw [Except.ok.injEq] at hok
    rw [← hok]
    rw [(updateManifestV3Finish_spec _ _ _ _ _ _ _).2.1, hout]
    simp [resolvedChunkFileNames, hout]
  · intro cs os hcsm hout
    have hcs' : (backgroundToModule m).content_scripts = some cs :=
      (backgroundToModule_proj m).1.trans hcsm
    cases os with
    | nil =>
      simp only [updateManifestV3, hcs', hout, Option.getD_some] at hok
      cases hok
    | cons o0 rest =>
      simp only [updateManifestV3, hcs', hout, Option.getD_some] at hok
      by_cases hlen : 2 ≤ (dedupFirst ((o0 :: rest).map
          (fun x => x.chunkFileNames.getD (strL "no cfn")))).length
      · rw [if_pos hlen] at hok
        cases hok
      · rw [if_neg hlen] at hok
        rw [Except.ok.injEq] at hok
        rw [← hok]
        rw [(updateManifestV3Finish_spec _ _ _ _ _ _ _).2.1, hout]
        simp [resolvedChunkFileNames, hout]
  · intro cs hcsm
    have hcs' : (backgroundToModule m).content_scripts = some cs :=
      (backgroundToModule_proj m).1.trans hcsm
    cases hout : options.output with
    | none =>
      simp only [updateManifestV3, hcs', hout, Option.getD_none] at hok
      rw [Except.ok.injEq] at hok
      rw [← hok]
      rw [(updateManifestV3Finish_spec _ _ _ _ _ _ _).2.2]
      simp [resolvedChunkFileNames, hout]
    | some outf =>
      cases outf with
      | single o =>
        simp only [updateManifestV3, hcs', hout, Option.getD_some] at hok
        rw [Except.ok.injEq] at hok
        rw [← hok]
        rw [(updateManifestV3Finish_spec _ _ _ _ _ _ _).2.2]
        simp [resolvedChunkFileNames, hout]
      | array os =>
        cases os with
        | nil =>
          simp only [updateManifestV3, hcs', hout, Option.getD_some] at hok
          cases hok
        | cons o0 rest =>
          simp only [updateManifestV3, hcs', hout, Option.getD_some] at hok
          by_cases hlen : 2 ≤ (dedupFirst ((o0 :: rest).map
              (fun x => x.chunkFileNames.getD (strL "no cfn")))).length
          · rw [if_pos hlen] at hok
            cases hok
          · rw [if_neg hlen] at hok
            rw [Except.ok.injEq] at hok
            rw [← hok]
            rw [(updateManifestV3Finish_spec _ _ _ _ _ _ _).2.2]
            simp [resolvedChunkFileNames, hout]

/-- Closed witness for `updateManifestV3_mutation_spec`. -/
theorem updateManifestV3_mutation_spec_witness :
    warWitnessRes.2.2 = { chunkFileNames := some (resolvedChunkFileNames {}) } :=
  (updateManifestV3_mutation_spec warWitnessManifest {} false {} warWitnessRes rfl).2.2.2.2
    [{ js := some [strL "a.js"] }] rfl

/-- C7: for every loaded manifest config that defines both `options_page`
    and `options_ui`, the manifest-loading `options` hook throws
    `'options_ui and options_page cannot both be defined in manifest.json.'`;
    the result is the same for *every* derivation function, so the throw
    happens before `deriveFiles` is invoked and no file derivation occurs. -/
theorem optionsHook_both_options_pages (configResult : ConfigResult) (inputDisplay : Str)
    (h1 : configResult.config.options_page.isSome = true)
    (h2 : configResult.config.options_ui.isSome = true)
    (hne : configResult.isEmpty = false) :
    ∀ derive : ManifestObj → Str → DerivedFiles,
      optionsHookLoadManifest derive configResult inputDisplay =
        Except.error (strL "options_ui and options_page cannot both be defined in manifest.json.") := by
  intro derive
  simp [optionsHookLoadManifest, hne, h1, h2]

/-- Closed witness for `optionsHook_both_options_pages`. -/
theorem optionsHook_both_options_pages_witness :
    optionsHookLoadManifest (fun _ _ => ⟨[], [], [], [], [], []⟩)
        { config := { options_page := some (strL "o.html"),
                      options_ui := some { page := some (strL "u.html") } } }
        (strL "src/manifest.json") =
      Except.error (strL "options_ui and options_page cannot both be defined in manifest.json.") :=
  optionsHook_both_options_pages
    { config := { options_page := some (strL "o.html"),
                  options_ui := some { page := some (strL "u.html") } } }
    (strL "src/manifest.json") (by decide) (by decide) (by decide)
    (fun _ _ => ⟨[], [], [], [], [], []⟩)
